import Mathlib

/-!
Verification of the Digby temperature dataset core: the incremental merge
performed by update_digby_temperature.py, the direct-save persistence step,
the January streak scan of analyze_january_patterns.py, the per-year cold-day
counts of analyze_cold_days.py / analyze_extreme_cold_days.py, the wind-field
derivation of the fetch/update record builder, and the wind visualizers'
column guard and zero-wind filtering.

Dates are modelled as natural numbers (an absolute day index): the scripts
only compare dates, step them by one day, and derive year/month labels, so a
linearly ordered day index together with abstract year/month projections is a
faithful shallow embedding. Temperatures are integers exactly as stored
(int(day['maxtempC']) and friends); averaged and wind quantities are rational.
-/

namespace Digby

/-- One persisted daily observation row, with exactly the fields written by
update_digby_temperature.py lines 147-160 (and originally by the fetch
script). -/
structure Record where
  date : Nat
  max_temp_c : Int
  min_temp_c : Int
  max_temp_f : Int
  min_temp_f : Int
  avg_temp_c : ℚ
  avg_temp_f : ℚ
  uv_index : String
  sun_hour : String
  wind_speed_kmph : ℚ
  wind_direction : String
  wind_gust_kmph : ℚ
  deriving Repr, DecidableEq

/-! ### The merge of update_digby_temperature.py (lines 178-182)

`df_combined = pd.concat([df_existing, df_new])` then
`df_combined.sort_values('date')` and
`df_combined.drop_duplicates(subset=['date'], keep='last')`.

The sort is modelled as a stable ascending sort on the date key (relative
order of rows with equal dates is preserved), and the duplicate drop keeps,
for each date, the last row of the sorted frame carrying that date. -/

/-- The sort key relation of `sort_values('date')`. -/
def dateLe (a b : Record) : Prop := a.date ≤ b.date

instance : DecidableRel dateLe := fun a b => inferInstanceAs (Decidable (a.date ≤ b.date))

instance : IsTotal Record dateLe := ⟨fun a b => Nat.le_total a.date b.date⟩

instance : IsTrans Record dateLe := ⟨fun _ _ _ h h' => Nat.le_trans h h'⟩

/-- Stable ascending sort on the date column (`sort_values('date')`, line 181). -/
def sortByDate (l : List Record) : List Record := List.insertionSort dateLe l

/-- `drop_duplicates(subset=['date'], keep='last')` (line 182): a row is kept
iff no later row has the same date. -/
def dedupKeepLast : List Record → List Record
  | [] => []
  | x :: xs => if x.date ∈ xs.map Record.date then dedupKeepLast xs else x :: dedupKeepLast xs

/-- The whole merge step (lines 178-182): concatenate the existing frame with
the new rows, sort ascending by date, drop duplicate dates keeping the last. -/
def merge (existing newRecords : List Record) : List Record :=
  dedupKeepLast (sortByDate (existing ++ newRecords))

/-- The record a dataset holds for a given date: the last row with that date
(`none` when the date is absent). -/
def lookupDate : List Record → Nat → Option Record
  | [], _ => none
  | r :: rs, d =>
    match lookupDate rs d with
    | some x => some x
    | none => if r.date = d then some r else none

theorem lookupDate_eq_some_mem {l : List Record} {d : Nat} {r : Record}
    (h : lookupDate l d = some r) : r ∈ l ∧ r.date = d := by
  induction l with
  | nil => simp [lookupDate] at h
  | cons x xs ih =>
    simp only [lookupDate] at h
    cases hx : lookupDate xs d with
    | some y =>
      rw [hx] at h
      obtain rfl : y = r := by injection h
      exact ⟨List.mem_cons_of_mem _ (ih hx).1, (ih hx).2⟩
    | none =>
      rw [hx] at h
      by_cases he : x.date = d
      · rw [if_pos he] at h
        obtain rfl : x = r := by injection h
        exact ⟨List.mem_cons_self x xs, he⟩
      · rw [if_neg he] at h
        exact absurd h (by simp)

theorem lookupDate_eq_none_iff (l : List Record) (d : Nat) :
    lookupDate l d = none ↔ d ∉ l.map Record.date := by
  induction l with
  | nil => simp [lookupDate]
  | cons r rs ih =>
    simp only [lookupDate, List.map_cons, List.mem_cons, not_or]
    cases h : lookupDate rs d with
    | some x =>
      have hmem : d ∈ rs.map Record.date := by
        rcases lookupDate_eq_some_mem h with ⟨hx, hxd⟩
        exact hxd ▸ List.mem_map_of_mem Record.date hx
      simp [hmem]
    | none =>
      have hnot : d ∉ rs.map Record.date := ih.mp h
      constructor
      · intro hif
        refine ⟨?_, hnot⟩
        intro hrd
        rw [if_pos hrd.symm] at hif
        exact Option.noConfusion hif
      · rintro ⟨hrd, -⟩
        rw [if_neg (fun h' : r.date = d => hrd h'.symm)]

theorem lookupDate_append (l₁ l₂ : List Record) (d : Nat) :
    lookupDate (l₁ ++ l₂) d =
      match lookupDate l₂ d with
      | some r => some r
      | none => lookupDate l₁ d := by
  induction l₁ with
  | nil =>
    simp only [List.nil_append]
    cases lookupDate l₂ d <;> rfl
  | cons x xs ih =>
    simp only [List.cons_append, lookupDate, List.append_eq]
    rw [ih]
    cases lookupDate l₂ d <;> cases lookupDate xs d <;> rfl

theorem lookupDate_dedupKeepLast (l : List Record) (d : Nat) :
    lookupDate (dedupKeepLast l) d = lookupDate l d := by
  induction l with
  | nil => rfl
  | cons x xs ih =>
    simp only [dedupKeepLast]
    by_cases hmem : x.date ∈ xs.map Record.date
    · rw [if_pos hmem]
      rw [ih]
      simp only [lookupDate]
      cases h : lookupDate xs d with
      | some y => rfl
      | none =>
        have : d ∉ xs.map Record.date := (lookupDate_eq_none_iff xs d).mp h
        have hne : x.date ≠ d := fun he => this (he ▸ hmem)
        simp [hne]
    · rw [if_neg hmem]
      simp only [lookupDate, ih]

theorem lookupDate_orderedInsert (a : Record) (l : List Record) (d : Nat) :
    lookupDate (List.orderedInsert dateLe a l) d = lookupDate (a :: l) d := by
  induction l with
  | nil => rfl
  | cons b bs ih =>
    simp only [List.orderedInsert]
    by_cases hab : dateLe a b
    · rw [if_pos hab]
    · rw [if_neg hab]
      have hblt : b.date < a.date := Nat.lt_of_not_le hab
      simp only [lookupDate, ih]
      cases h : lookupDate bs d with
      | some y => rfl
      | none =>
        by_cases hbd : b.date = d
        · have had : a.date ≠ d := by
            intro had
            exact absurd (had ▸ hbd ▸ hblt) (Nat.lt_irrefl _)
          simp [hbd, had]
        · simp only [if_neg hbd]
          cases hval : (if a.date = d then some a else none) <;> simp [hval]

theorem lookupDate_sortByDate (l : List Record) (d : Nat) :
    lookupDate (sortByDate l) d = lookupDate l d := by
  induction l with
  | nil => rfl
  | cons x xs ih =>
    show lookupDate (List.orderedInsert dateLe x (List.insertionSort dateLe xs)) d = _
    rw [lookupDate_orderedInsert]
    simp only [lookupDate]
    rw [show List.insertionSort dateLe xs = sortByDate xs from rfl, ih]

theorem lookupDate_merge (existing newRecords : List Record) (d : Nat) :
    lookupDate (merge existing newRecords) d = lookupDate (existing ++ newRecords) d := by
  unfold merge
  rw [lookupDate_dedupKeepLast, lookupDate_sortByDate]

/-- Strict ascending order on the date key. -/
def dateLt (a b : Record) : Prop := a.date < b.date

theorem dedupKeepLast_subset {l : List Record} {r : Record} (h : r ∈ dedupKeepLast l) :
    r ∈ l := by
  induction l with
  | nil => simp [dedupKeepLast] at h
  | cons x xs ih =>
    simp only [dedupKeepLast] at h
    by_cases hm : x.date ∈ xs.map Record.date
    · rw [if_pos hm] at h
      exact List.mem_cons_of_mem _ (ih h)
    · rw [if_neg hm] at h
      rcases List.mem_cons.mp h with rfl | h'
      · exact List.mem_cons_self _ _
      · exact List.mem_cons_of_mem _ (ih h')

theorem sorted_sortByDate (l : List Record) : (sortByDate l).Sorted dateLe :=
  List.sorted_insertionSort dateLe l

theorem pairwise_dateLt_dedupKeepLast {l : List Record} (h : l.Sorted dateLe) :
    (dedupKeepLast l).Pairwise dateLt := by
  induction l with
  | nil => exact List.Pairwise.nil
  | cons x xs ih =>
    have hxs : xs.Sorted dateLe := h.of_cons
    simp only [dedupKeepLast]
    by_cases hm : x.date ∈ xs.map Record.date
    · rw [if_pos hm]
      exact ih hxs
    · rw [if_neg hm]
      refine List.Pairwise.cons ?_ (ih hxs)
      intro y hy
      have hyxs : y ∈ xs := dedupKeepLast_subset hy
      have hle : dateLe x y := List.rel_of_sorted_cons h y hyxs
      have hne : x.date ≠ y.date := fun he => hm (he ▸ List.mem_map_of_mem Record.date hyxs)
      exact Nat.lt_of_le_of_ne hle hne

theorem merge_pairwise_dateLt (existing newRecords : List Record) :
    (merge existing newRecords).Pairwise dateLt :=
  pairwise_dateLt_dedupKeepLast (sorted_sortByDate _)

theorem lookupDate_eq_none_of_forall {l : List Record} {d : Nat}
    (h : ∀ y ∈ l, y.date ≠ d) : lookupDate l d = none := by
  rw [lookupDate_eq_none_iff]
  intro hm
  rcases List.mem_map.mp hm with ⟨y, hy, hyd⟩
  exact h y hy hyd

theorem lookupDate_cons_self {x : Record} {xs : List Record}
    (h : (x :: xs).Pairwise dateLt) : lookupDate (x :: xs) x.date = some x := by
  have hnone : lookupDate xs x.date = none :=
    lookupDate_eq_none_of_forall (fun y hy =>
      ne_of_gt ((List.pairwise_cons.mp h).1 y hy))
  simp [lookupDate, hnone]

theorem lookupDate_cons_ne {x : Record} (xs : List Record) {d : Nat} (h : x.date ≠ d) :
    lookupDate (x :: xs) d = lookupDate xs d := by
  simp only [lookupDate]
  cases lookupDate xs d <;> simp [h]

/-- Two datasets in strict date order holding the same record for every date
are equal, record for record and in the same order. -/
theorem eq_of_pairwise_lookup_eq {l₁ : List Record} :
    ∀ {l₂ : List Record}, l₁.Pairwise dateLt → l₂.Pairwise dateLt →
      (∀ d, lookupDate l₁ d = lookupDate l₂ d) → l₁ = l₂ := by
  induction l₁ with
  | nil =>
    intro l₂ _ h₂ hEq
    cases l₂ with
    | nil => rfl
    | cons y ys =>
      have hc := (hEq y.date).symm
      rw [lookupDate_cons_self h₂] at hc
      exact absurd hc (by simp [lookupDate])
  | cons x xs ih =>
    intro l₂ h₁ h₂ hEq
    cases l₂ with
    | nil =>
      have hc := hEq x.date
      rw [lookupDate_cons_self h₁] at hc
      exact absurd hc (by simp [lookupDate])
    | cons y ys =>
      have hx : x ∈ y :: ys := by
        have hc := hEq x.date
        rw [lookupDate_cons_self h₁] at hc
        exact (lookupDate_eq_some_mem hc.symm).1
      have hy : y ∈ x :: xs := by
        have hc := (hEq y.date).symm
        rw [lookupDate_cons_self h₂] at hc
        exact (lookupDate_eq_some_mem hc.symm).1
      have hxy : x = y := by
        by_contra hne
        have hxys : x ∈ ys := (List.mem_cons.mp hx).resolve_left hne
        have hyxs : y ∈ xs := (List.mem_cons.mp hy).resolve_left (fun he => hne he.symm)
        have hlt1 : x.date < y.date := (List.pairwise_cons.mp h₁).1 y hyxs
        have hlt2 : y.date < x.date := (List.pairwise_cons.mp h₂).1 x hxys
        exact absurd hlt1 (Nat.lt_asymm hlt2)
      subst hxy
      congr 1
      refine ih h₁.of_cons h₂.of_cons ?_
      intro d
      by_cases hd : x.date = d
      · subst hd
        have hx1 : lookupDate xs x.date = none :=
          lookupDate_eq_none_of_forall fun z hz =>
            ne_of_gt ((List.pairwise_cons.mp h₁).1 z hz)
        have hx2 : lookupDate ys x.date = none :=
          lookupDate_eq_none_of_forall fun z hz =>
            ne_of_gt ((List.pairwise_cons.mp h₂).1 z hz)
        rw [hx1, hx2]
      · have hc := hEq d
        rwa [lookupDate_cons_ne xs hd, lookupDate_cons_ne ys hd] at hc

/-- Claim C1: merging the same batch twice is the same as merging it once;
the resulting dataset is identical record for record and in the same order. -/
theorem merge_idempotent (D B : List Record) : merge (merge D B) B = merge D B := by
  refine eq_of_pairwise_lookup_eq (merge_pairwise_dateLt _ _) (merge_pairwise_dateLt _ _) ?_
  intro d
  rw [lookupDate_merge, lookupDate_append, lookupDate_merge, lookupDate_append]
  cases lookupDate B d <;> rfl

/-- Claim C2: on a date collision the merged dataset holds the batch's record
for that date (field for field), not the existing dataset's. -/
theorem merge_precedence_new_wins (D B : List Record) (d : Nat)
    (h : d ∈ B.map Record.date) :
    lookupDate (merge D B) d = lookupDate B d ∧ (lookupDate B d).isSome := by
  have hB : lookupDate B d ≠ none := fun hn => (lookupDate_eq_none_iff B d).mp hn h
  rw [lookupDate_merge, lookupDate_append]
  cases hb : lookupDate B d with
  | none => exact absurd hb hB
  | some r => exact ⟨rfl, rfl⟩

/-- Claim C3: after any merge the dataset is in strictly increasing date
order (hence at most one record per date). -/
theorem merge_strict_sorted (D B : List Record) :
    (merge D B).Pairwise (fun a b => a.date < b.date) :=
  merge_pairwise_dateLt D B

/-- Test fixture: a record for day d with the given Celsius extremes and
defaulted optional fields. -/
def mkDay (d : Nat) (maxC minC : Int) : Record where
  date := d
  max_temp_c := maxC
  min_temp_c := minC
  max_temp_f := maxC * 9 / 5 + 32
  min_temp_f := minC * 9 / 5 + 32
  avg_temp_c := ((maxC : ℚ) + (minC : ℚ)) / 2
  avg_temp_f := (((maxC * 9 / 5 + 32 : Int) : ℚ) + ((minC * 9 / 5 + 32 : Int) : ℚ)) / 2
  uv_index := ""
  sun_hour := ""
  wind_speed_kmph := 0
  wind_direction := ""
  wind_gust_kmph := 0

/-- Witness for claim C2 at a concrete collision: day 10 is in both the
dataset and the batch, and the merge keeps the batch's record. -/
theorem merge_precedence_new_wins_witness :
    (10 ∈ ([mkDay 10 5 1, mkDay 11 6 2].map Record.date)) ∧
    (lookupDate (merge [mkDay 10 2 0] [mkDay 10 5 1, mkDay 11 6 2]) 10 =
        lookupDate [mkDay 10 5 1, mkDay 11 6 2] 10 ∧
      (lookupDate [mkDay 10 5 1, mkDay 11 6 2] 10).isSome) :=
  ⟨by decide, merge_precedence_new_wins [mkDay 10 2 0] [mkDay 10 5 1, mkDay 11 6 2] 10 (by decide)⟩

theorem lookupDate_eq_of_nodup {l : List Record} {r : Record}
    (hnodup : (l.map Record.date).Nodup) (hr : r ∈ l) :
    lookupDate l r.date = some r := by
  induction l with
  | nil => simp at hr
  | cons x xs ih =>
    simp only [List.map_cons, List.nodup_cons] at hnodup
    rcases List.mem_cons.mp hr with rfl | hrxs
    · have hnone : lookupDate xs r.date = none :=
        (lookupDate_eq_none_iff xs r.date).mpr hnodup.1
      simp [lookupDate, hnone]
    · have hsome : lookupDate xs r.date = some r := ih hnodup.2 hrxs
      simp [lookupDate, hsome]

/-- The date-window filter of update_digby_temperature.py lines 136-139: a
fetched day is kept only when its date is at least start_date (the day after
the last recorded date) and at most today. -/
def dateWindowFilter (lastDate today : Nat) (batch : List Record) : List Record :=
  batch.filter (fun r => decide (lastDate + 1 ≤ r.date) && decide (r.date ≤ today))

/-- Claim C9: every record surviving the update's date-window filter has a
date strictly after the last persisted date and not after today, so it can
collide with no existing record, and every existing record reappears
unchanged (field for field) in the merged dataset. Hypotheses: the persisted
dataset has one record per date (its documented invariant) and lastDate is an
upper bound of its dates (the code takes lastDate = max date). -/
theorem incremental_update_frame (D B : List Record) (lastDate today : Nat)
    (hnodup : (D.map Record.date).Nodup)
    (hlast : ∀ r ∈ D, r.date ≤ lastDate) :
    (∀ b ∈ dateWindowFilter lastDate today B, lastDate < b.date ∧ b.date ≤ today) ∧
    (∀ b ∈ dateWindowFilter lastDate today B, ∀ r ∈ D, r.date ≠ b.date) ∧
    (∀ r ∈ D, lookupDate (merge D (dateWindowFilter lastDate today B)) r.date = some r ∧
      r ∈ merge D (dateWindowFilter lastDate today B)) := by
  have hwin : ∀ b ∈ dateWindowFilter lastDate today B, lastDate < b.date ∧ b.date ≤ today := by
    intro b hb
    have hmem := List.mem_filter.mp hb
    have hcond := hmem.2
    simp only [Bool.and_eq_true, decide_eq_true_eq] at hcond
    exact ⟨Nat.lt_of_succ_le hcond.1, hcond.2⟩
  have hne : ∀ b ∈ dateWindowFilter lastDate today B, ∀ r ∈ D, r.date ≠ b.date := by
    intro b hb r hr
    have h1 : r.date ≤ lastDate := hlast r hr
    have h2 : lastDate < b.date := (hwin b hb).1
    exact Nat.ne_of_lt (Nat.lt_of_le_of_lt h1 h2)
  refine ⟨hwin, hne, ?_⟩
  intro r hr
  have hBnone : lookupDate (dateWindowFilter lastDate today B) r.date = none :=
    lookupDate_eq_none_of_forall (fun y hy => (hne y hy r hr).symm)
  have hD : lookupDate D r.date = some r := lookupDate_eq_of_nodup hnodup hr
  have hlook : lookupDate (merge D (dateWindowFilter lastDate today B)) r.date = some r := by
    rw [lookupDate_merge, lookupDate_append, hBnone, hD]
  exact ⟨hlook, (lookupDate_eq_some_mem hlook).1⟩

/-- Concrete fixtures for the update-frame witness. -/
def existingFixture : List Record := [mkDay 5 1 0, mkDay 6 2 0]

def batchFixture : List Record := [mkDay 6 9 9, mkDay 7 3 1, mkDay 9 4 2]

/-- Witness for claim C9: last persisted date 6, today 8; the filter keeps
only day 7, which collides with nothing, and days 5 and 6 survive unchanged. -/
theorem incremental_update_frame_witness :
    ((existingFixture.map Record.date).Nodup ∧ ∀ r ∈ existingFixture, r.date ≤ 6) ∧
    ((∀ b ∈ dateWindowFilter 6 8 batchFixture, 6 < b.date ∧ b.date ≤ 8) ∧
      (∀ b ∈ dateWindowFilter 6 8 batchFixture, ∀ r ∈ existingFixture, r.date ≠ b.date) ∧
      (∀ r ∈ existingFixture,
        lookupDate (merge existingFixture (dateWindowFilter 6 8 batchFixture)) r.date = some r ∧
        r ∈ merge existingFixture (dateWindowFilter 6 8 batchFixture))) :=
  ⟨⟨by decide, by decide⟩,
    incremental_update_frame existingFixture batchFixture 6 8 (by decide) (by decide)⟩

/-! ### Persistence (update_digby_temperature.py line 196)

The merged frame is saved with `df_combined.to_csv(CSV_FILE, index=False)`:
a direct overwrite of the target path, with no temporary file and no rename.
Model: the target file's contents are a list of rows; opening for writing
truncates the file and each row is then appended in order. The step counter
k of a crashed save counts completed steps: step 0 is before the open, step 1
is the truncating open, step 1 + i has written the first i rows. -/

def toCsvWriteStep (fileContents : List String) (row : String) : List String :=
  fileContents ++ [row]

/-- Contents of the target file after the truncating open and i row writes. -/
def toCsvPartial (rows : List String) (i : Nat) : List String :=
  (rows.take i).foldl toCsvWriteStep []

/-- Contents of the target file when the direct save of rows over a file
previously holding prev crashes after k completed steps. -/
def directSaveCrash (prev rows : List String) (k : Nat) : List String :=
  if k = 0 then prev else toCsvPartial rows (k - 1)

theorem toCsvPartial_eq_take (rows : List String) (i : Nat) :
    toCsvPartial rows i = rows.take i := by
  have haux : ∀ (l acc : List String), l.foldl toCsvWriteStep acc = acc ++ l := by
    intro l
    induction l with
    | nil => intro acc; simp
    | cons x xs ih => intro acc; simp [toCsvWriteStep, ih]
  simp [toCsvPartial, haux]

/-- Counterexample to claim C4 as stated: the save is not atomic. A failure
during writing (here: right after the truncating open, one completed step)
leaves an empty file, not the previously persisted dataset. -/
theorem directSave_not_atomic_counterexample :
    directSaveCrash ["2020-01-01,5,1"] ["2020-01-01,5,1", "2020-01-02,6,2"] 1 ≠
      ["2020-01-01,5,1"] := by decide

/-- Claim C4 amended: the save overwrites the target path in place, so a
crash after the file is opened leaves exactly the prefix of the new rows
written so far (possibly empty, i.e. a truncated file); the previous dataset
survives only a crash that happens before the open; a completed save leaves
exactly the new rows. -/
theorem directSave_crash_characterization (prev rows : List String) (k : Nat) :
    (k = 0 → directSaveCrash prev rows k = prev) ∧
    (1 ≤ k → directSaveCrash prev rows k = rows.take (k - 1)) ∧
    directSaveCrash prev rows (rows.length + 1) = rows := by
  refine ⟨?_, ?_, ?_⟩
  · intro hk
    simp [directSaveCrash, hk]
  · intro hk
    have hk0 : k ≠ 0 := Nat.one_le_iff_ne_zero.mp hk
    simp [directSaveCrash, hk0, toCsvPartial_eq_take]
  · simp [directSaveCrash, toCsvPartial_eq_take]

/-- Witness for the amended claim C4: crashing after two completed steps of
writing ["b", "c"] over ["a"] leaves ["b"]. -/
theorem directSave_crash_characterization_witness :
    directSaveCrash ["a"] ["b", "c"] 2 = ["b"] := by
  have h := (directSave_crash_characterization ["a"] ["b", "c"] 2).2.1 (by decide)
  simpa using h

/-! ### Streak detection (analyze_january_patterns.py lines 53-84)

For each year the January rows are scanned in ascending date order; a counter
current_streak grows while `max_temp_c < -5` holds row after row, a failing
row flushes (streak_start, current_streak) into streaks, and lines 74-76
flush a run still open when the rows end. The loop state is passed
explicitly. Note the loop advances over successive ROWS; it never inspects
the calendar distance between them. -/

/-- The cold predicate of line 64: max_temp_c < -5. -/
def coldMaxPred (r : Record) : Bool := decide (r.max_temp_c < -5)

/-- The scan loop of lines 58-76; the [] case is the post-loop flush of an
open run. streakStart is meaningful only while 0 < currentStreak, matching
the Python variable. -/
def streakLoop (pred : Record → Bool) (acc : List (Nat × Nat))
    (streakStart currentStreak : Nat) : List Record → List (Nat × Nat)
  | [] => if 0 < currentStreak then acc ++ [(streakStart, currentStreak)] else acc
  | r :: rs =>
    if pred r then
      if currentStreak = 0 then streakLoop pred acc r.date 1 rs
      else streakLoop pred acc streakStart (currentStreak + 1) rs
    else
      if 0 < currentStreak then
        streakLoop pred (acc ++ [(streakStart, currentStreak)]) streakStart 0 rs
      else streakLoop pred acc streakStart 0 rs

/-- The reported streak list: the loop run from the initial state. -/
def consecutiveDayStreaks (pred : Record → Bool) (recs : List Record) : List (Nat × Nat) :=
  streakLoop pred [] 0 0 recs

theorem length_dropWhile_le (pred : Record → Bool) (l : List Record) :
    (l.dropWhile pred).length ≤ l.length := by
  induction l with
  | nil => simp
  | cons x xs ih =>
    rw [List.dropWhile_cons]
    by_cases hp : pred x = true
    · simp only [hp, if_true]
      exact Nat.le_succ_of_le ih
    · simp [hp]

/-- Recursive reformulation of the scan: the first satisfying record opens a
run that absorbs the longest satisfying run from there, and the scan resumes
past it. -/
def streaksSpan (pred : Record → Bool) : List Record → List (Nat × Nat)
  | [] => []
  | r :: rs =>
    if pred r then
      (r.date, (rs.takeWhile pred).length + 1) :: streaksSpan pred (rs.dropWhile pred)
    else streaksSpan pred rs
termination_by l => l.length
decreasing_by
  · simp only [List.length_cons]
    exact Nat.lt_succ_of_le (length_dropWhile_le _ _)
  · simp only [List.length_cons]
    exact Nat.lt_succ_self _

theorem streaksSpan_nil (pred : Record → Bool) : streaksSpan pred [] = [] := by
  rw [streaksSpan]

theorem streaksSpan_cons (pred : Record → Bool) (r : Record) (rs : List Record) :
    streaksSpan pred (r :: rs) =
      if pred r then
        (r.date, (rs.takeWhile pred).length + 1) :: streaksSpan pred (rs.dropWhile pred)
      else streaksSpan pred rs := by
  rw [streaksSpan]

/-- The scan loop, from any state, computes the span form. -/
theorem streakLoop_eq (pred : Record → Bool) :
    ∀ (l : List Record) (acc : List (Nat × Nat)) (streakStart currentStreak : Nat),
      streakLoop pred acc streakStart currentStreak l =
        if currentStreak = 0 then acc ++ streaksSpan pred l
        else acc ++ (streakStart, currentStreak + (l.takeWhile pred).length) ::
          streaksSpan pred (l.dropWhile pred) := by
  intro l
  induction l with
  | nil =>
    intro acc start cur
    by_cases hc : cur = 0
    · subst hc
      simp [streakLoop, streaksSpan_nil]
    · have hpos : 0 < cur := Nat.pos_of_ne_zero hc
      rw [if_neg hc]
      simp only [streakLoop, if_pos hpos, List.takeWhile_nil, List.dropWhile_nil,
        List.length_nil, Nat.add_zero, streaksSpan_nil]
  | cons r rs ih =>
    intro acc start cur
    simp only [streakLoop]
    by_cases hp : pred r = true
    · rw [if_pos hp]
      by_cases hc : cur = 0
      · subst hc
        rw [if_pos rfl, ih, if_neg Nat.one_ne_zero, if_pos rfl, streaksSpan_cons, if_pos hp]
        have harith : 1 + (rs.takeWhile pred).length = (rs.takeWhile pred).length + 1 :=
          Nat.add_comm _ _
        rw [harith]
      · rw [if_neg hc, ih, if_neg (Nat.succ_ne_zero cur), if_neg hc,
          List.takeWhile_cons_of_pos hp, List.dropWhile_cons_of_pos hp, List.length_cons]
        have harith : cur + 1 + (rs.takeWhile pred).length
            = cur + ((rs.takeWhile pred).length + 1) := by omega
        rw [harith]
    · rw [if_neg hp]
      by_cases hc : cur = 0
      · subst hc
        rw [if_neg (Nat.lt_irrefl 0), ih, if_pos rfl, if_pos rfl, streaksSpan_cons, if_neg hp]
      · have hpos : 0 < cur := Nat.pos_of_ne_zero hc
        rw [if_pos hpos, ih, if_pos rfl, if_neg hc,
          List.takeWhile_cons_of_neg hp, List.dropWhile_cons_of_neg hp,
          List.length_nil, Nat.add_zero, streaksSpan_cons, if_neg hp, List.append_assoc]
        rfl

theorem consecutiveDayStreaks_eq_span (pred : Record → Bool) (recs : List Record) :
    consecutiveDayStreaks pred recs = streaksSpan pred recs := by
  unfold consecutiveDayStreaks
  rw [streakLoop_eq]
  simp

/-- Successive records one calendar day apart (no gap). -/
def nextDay (a b : Record) : Prop := b.date = a.date + 1

instance : DecidableRel nextDay := fun a b => inferInstanceAs (Decidable (b.date = a.date + 1))

instance : IsTrans Record dateLt := ⟨fun _ _ _ h h' => Nat.lt_trans h h'⟩

theorem chain_nextDay_pairwise {l : List Record} (h : List.Chain' nextDay l) :
    l.Pairwise dateLt := by
  have h' : List.Chain' dateLt l :=
    h.imp (fun a b hab => show a.date < b.date from hab ▸ Nat.lt_succ_self a.date)
  exact List.chain'_iff_pairwise.mp h'

theorem chain_nextDay_covers :
    ∀ (l : List Record) (x : Record), List.Chain' nextDay (x :: l) →
      ∀ i < (x :: l).length, ∃ r ∈ x :: l, r.date = x.date + i := by
  intro l
  induction l with
  | nil =>
    intro x _ i hi
    have hi0 : i = 0 := Nat.lt_one_iff.mp hi
    subst hi0
    exact ⟨x, List.mem_cons_self _ _, (Nat.add_zero _).symm⟩
  | cons y ys ih =>
    intro x hch i hi
    rcases List.chain'_cons.mp hch with ⟨hxy, hch'⟩
    have hxy' : y.date = x.date + 1 := hxy
    cases i with
    | zero => exact ⟨x, List.mem_cons_self _ _, (Nat.add_zero _).symm⟩
    | succ j =>
      have hj : j < (y :: ys).length := by
        simp only [List.length_cons] at hi ⊢
        omega
      rcases ih y hch' j hj with ⟨r, hr, hrd⟩
      refine ⟨r, List.mem_cons_of_mem _ hr, ?_⟩
      rw [hrd, hxy']
      omega

theorem chain_nextDay_bound :
    ∀ (l : List Record) (x : Record), List.Chain' nextDay (x :: l) →
      ∀ r ∈ x :: l, r.date < x.date + (x :: l).length := by
  intro l
  induction l with
  | nil =>
    intro x _ r hr
    rcases List.mem_singleton.mp hr with rfl
    simp
  | cons y ys ih =>
    intro x hch r hr
    rcases List.chain'_cons.mp hch with ⟨hxy, hch'⟩
    have hxy' : y.date = x.date + 1 := hxy
    rcases List.mem_cons.mp hr with rfl | hr'
    · simp only [List.length_cons]
      omega
    · have hb := ih y hch' r hr'
      simp only [List.length_cons] at hb ⊢
      omega

theorem chain_nextDay_append_head :
    ∀ (l₁ : List Record) (x y : Record) (l₂ : List Record),
      List.Chain' nextDay ((x :: l₁) ++ y :: l₂) → y.date = x.date + l₁.length + 1 := by
  intro l₁
  induction l₁ with
  | nil =>
    intro x y l₂ hch
    simp only [List.cons_append, List.nil_append] at hch
    have h : y.date = x.date + 1 := (List.chain'_cons.mp hch).1
    simpa using h
  | cons z zs ih =>
    intro x y l₂ hch
    simp only [List.cons_append] at hch
    rcases List.chain'_cons.mp hch with ⟨hxz, hch'⟩
    have hxz' : z.date = x.date + 1 := hxz
    have hz := ih z y l₂ hch'
    simp only [List.length_cons]
    omega

theorem chain_nextDay_head_le {l : List Record} {x : Record}
    (h : List.Chain' nextDay (x :: l)) : ∀ r ∈ x :: l, x.date ≤ r.date := by
  intro r hr
  rcases List.mem_cons.mp hr with rfl | hr'
  · exact Nat.le_refl _
  · exact Nat.le_of_lt ((List.pairwise_cons.mp (chain_nextDay_pairwise h)).1 r hr')

theorem dropWhile_head_false (pred : Record → Bool) :
    ∀ (l : List Record) (y : Record) (ys : List Record),
      l.dropWhile pred = y :: ys → pred y = false := by
  intro l
  induction l with
  | nil => intro y ys h; simp [List.dropWhile] at h
  | cons x xs ih =>
    intro y ys h
    by_cases hp : pred x = true
    · rw [List.dropWhile_cons_of_pos hp] at h
      exact ih y ys h
    · rw [List.dropWhile_cons_of_neg hp] at h
      cases h
      exact Bool.eq_false_iff.mpr hp

/-- The spec's reading of one reported streak (start date, length): every
calendar date in its span is carried by a scanned record satisfying the
predicate. -/
def streakCoversDates (pred : Record → Bool) (recs : List Record) (s : Nat × Nat) : Prop :=
  ∀ i < s.2, ∃ r ∈ recs, r.date = s.1 + i ∧ pred r = true

/-- The spec's maximality of a reported streak: no satisfying scanned record
sits on the calendar date just past its end, nor on the date just before its
start. -/
def streakMaximal (pred : Record → Bool) (recs : List Record) (s : Nat × Nat) : Prop :=
  (∀ r ∈ recs, r.date = s.1 + s.2 → pred r = false) ∧
  (∀ r ∈ recs, r.date + 1 = s.1 → pred r = false)

/-- Over a gap-free period (successive scanned records one calendar day
apart) every streak the span form reports is a maximal run of consecutive
calendar dates satisfying the predicate. -/
theorem streaksSpan_gapfree (pred : Record → Bool) :
    ∀ (N : Nat) (l : List Record), l.length ≤ N → List.Chain' nextDay l →
      ∀ s ∈ streaksSpan pred l,
        0 < s.2 ∧ streakCoversDates pred l s ∧ streakMaximal pred l s := by
  intro N
  induction N with
  | zero =>
    intro l hlen _ s hs
    have hnil : l = [] := List.length_eq_zero.mp (Nat.le_zero.mp hlen)
    subst hnil
    rw [streaksSpan_nil] at hs
    simp at hs
  | succ N ih =>
    intro l hlen hch s hs
    cases l with
    | nil =>
      rw [streaksSpan_nil] at hs
      simp at hs
    | cons r rs =>
      rw [streaksSpan_cons] at hs
      by_cases hp : pred r = true
      · rw [if_pos hp] at hs
        have hdec : r :: rs = (r :: rs.takeWhile pred) ++ rs.dropWhile pred := by
          simp [List.takeWhile_append_dropWhile]
        have hch2 : List.Chain' nextDay ((r :: rs.takeWhile pred) ++ rs.dropWhile pred) := by
          rw [← hdec]; exact hch
        have hchainRun : List.Chain' nextDay (r :: rs.takeWhile pred) := hch2.left_of_append
        have hchainRest : List.Chain' nextDay (rs.dropWhile pred) := hch2.right_of_append
        have hmem_split : ∀ x, x ∈ r :: rs →
            x ∈ r :: rs.takeWhile pred ∨ x ∈ rs.dropWhile pred := by
          intro x hx
          rw [hdec] at hx
          exact List.mem_append.mp hx
        have hrun_bound : ∀ x ∈ r :: rs.takeWhile pred,
            x.date < r.date + ((rs.takeWhile pred).length + 1) := by
          intro x hx
          have hb := chain_nextDay_bound (rs.takeWhile pred) r hchainRun x hx
          simpa [List.length_cons] using hb
        have hrun_pred : ∀ x ∈ r :: rs.takeWhile pred, pred x = true := by
          intro x hx
          rcases List.mem_cons.mp hx with rfl | hx'
          · exact hp
          · exact List.mem_takeWhile_imp hx'
        have hrest_first : ∀ y ys, rs.dropWhile pred = y :: ys →
            y.date = r.date + (rs.takeWhile pred).length + 1 ∧ pred y = false := by
          intro y ys hrest
          refine ⟨chain_nextDay_append_head (rs.takeWhile pred) r y ys (hrest ▸ hch2), ?_⟩
          exact dropWhile_head_false pred rs y ys hrest
        rcases List.mem_cons.mp hs with rfl | hs'
        · refine ⟨Nat.succ_pos _, ?_, ?_, ?_⟩
          · intro i hi
            have hcov := chain_nextDay_covers (rs.takeWhile pred) r hchainRun i
              (by simpa using hi)
            rcases hcov with ⟨x, hx, hxd⟩
            refine ⟨x, ?_, hxd, hrun_pred x hx⟩
            rw [hdec]
            exact List.mem_append_left _ hx
          · intro x hx hxd
            have hxd' : x.date = r.date + ((rs.takeWhile pred).length + 1) := hxd
            rcases hmem_split x hx with hxr | hxrest
            · exfalso
              have hb := hrun_bound x hxr
              omega
            · cases hrest : rs.dropWhile pred with
              | nil => rw [hrest] at hxrest; simp at hxrest
              | cons y ys =>
                rw [hrest] at hxrest
                rcases hrest_first y ys hrest with ⟨hyd, hyp⟩
                rcases List.mem_cons.mp hxrest with rfl | hxys
                · exact hyp
                · exfalso
                  have hchainRest' : List.Chain' nextDay (y :: ys) := hrest ▸ hchainRest
                  have hlt : y.date < x.date :=
                    (List.pairwise_cons.mp (chain_nextDay_pairwise hchainRest')).1 x hxys
                  omega
          · intro x hx hxd
            have hxd' : x.date + 1 = r.date := hxd
            have hle := chain_nextDay_head_le hch x hx
            exact absurd hxd' (by omega)
        · have hlenrest : (rs.dropWhile pred).length ≤ N := by
            have h1 := length_dropWhile_le pred rs
            simp only [List.length_cons] at hlen
            omega
          have IH := ih (rs.dropWhile pred) hlenrest hchainRest s hs'
          have hpos : 0 < s.2 := IH.1
          have hcov := IH.2.1
          have hmaxR := IH.2.2.1
          have hmaxL := IH.2.2.2
          cases hrest : rs.dropWhile pred with
          | nil =>
            rw [hrest, streaksSpan_nil] at hs'
            simp at hs'
          | cons y ys =>
            rcases hrest_first y ys hrest with ⟨hyd, hyp⟩
            have hchainRest' : List.Chain' nextDay (y :: ys) := hrest ▸ hchainRest
            have hstart : y.date < s.1 := by
              rcases hcov 0 hpos with ⟨x₀, hx₀, hx₀d, hx₀p⟩
              rw [hrest] at hx₀
              rcases List.mem_cons.mp hx₀ with rfl | hx₀ys
              · rw [hyp] at hx₀p
                simp at hx₀p
              · have hlt : y.date < x₀.date :=
                  (List.pairwise_cons.mp (chain_nextDay_pairwise hchainRest')).1 x₀ hx₀ys
                omega
            refine ⟨hpos, ?_, ?_, ?_⟩
            · intro i hi
              rcases hcov i hi with ⟨x, hx, hxd, hxp⟩
              refine ⟨x, ?_, hxd, hxp⟩
              rw [hdec]
              exact List.mem_append_right _ hx
            · intro x hx hxd
              rcases hmem_split x hx with hxr | hxrest
              · exfalso
                have hb := hrun_bound x hxr
                omega
              · exact hmaxR x hxrest hxd
            · intro x hx hxd
              rcases hmem_split x hx with hxr | hxrest
              · exfalso
                have hb := hrun_bound x hxr
                omega
              · exact hmaxL x hxrest hxd
      · rw [if_neg hp] at hs
        have hpf : pred r = false := Bool.eq_false_iff.mpr hp
        have hch' : List.Chain' nextDay rs := hch.tail
        have hlen' : rs.length ≤ N := by
          simp only [List.length_cons] at hlen
          omega
        have IH := ih rs hlen' hch' s hs
        have hpos : 0 < s.2 := IH.1
        have hcov := IH.2.1
        have hmaxR := IH.2.2.1
        have hmaxL := IH.2.2.2
        refine ⟨hpos, ?_, ?_, ?_⟩
        · intro i hi
          rcases hcov i hi with ⟨x, hx, hxd, hxp⟩
          exact ⟨x, List.mem_cons_of_mem _ hx, hxd, hxp⟩
        · intro x hx hxd
          rcases List.mem_cons.mp hx with rfl | hx'
          · exact hpf
          · exact hmaxR x hx' hxd
        · intro x hx hxd
          rcases List.mem_cons.mp hx with rfl | hx'
          · exact hpf
          · exact hmaxL x hx' hxd

/-- The spec's January example: dates 1..6 stand for 01-01..01-06, with
max_temp_c sequence [-6, -7, -8, 3, -6, -6]. -/
def januaryRecords : List Record :=
  [mkDay 1 (-6) (-8), mkDay 2 (-7) (-9), mkDay 3 (-8) (-10),
   mkDay 4 3 1, mkDay 5 (-6) (-8), mkDay 6 (-6) (-8)]

/-- A period with a calendar gap: cold records on days 1 and 3, none on day 2. -/
def gapRecords : List Record := [mkDay 1 (-6) (-8), mkDay 3 (-6) (-8)]

/-- Counterexample to claim C5 as stated: with a calendar gap in the scanned
period the scan reports one streak of length 2 starting at day 1, but that
streak is not a run of consecutive calendar dates all satisfying the
predicate — no scanned record carries day 2. -/
theorem streaks_gap_counterexample :
    consecutiveDayStreaks coldMaxPred gapRecords = [(1, 2)] ∧
    ¬ streakCoversDates coldMaxPred gapRecords (1, 2) := by
  constructor
  · decide
  · intro h
    rcases h 1 (by decide) with ⟨r, hr, hd, -⟩
    rcases List.mem_cons.mp hr with rfl | hr'
    · exact absurd hd (by decide)
    · rcases List.mem_singleton.mp hr' with rfl
      exact absurd hd (by decide)

/-- Claim C5 amended: each reported streak is a maximal run of consecutive
scanned records satisfying the predicate (open runs at period end included);
when the scanned period is gap-free — successive records one calendar day
apart — this coincides with the claim's maximal runs of consecutive calendar
dates, but a calendar gap does not break a run. On the January example the
reported streaks are exactly [(01-01, 3), (01-05, 2)]. -/
theorem streak_scan_characterization :
    (∀ (pred : Record → Bool) (recs : List Record), List.Chain' nextDay recs →
      ∀ s ∈ consecutiveDayStreaks pred recs,
        0 < s.2 ∧ streakCoversDates pred recs s ∧ streakMaximal pred recs s) ∧
    consecutiveDayStreaks coldMaxPred januaryRecords = [(1, 3), (5, 2)] := by
  constructor
  · intro pred recs hch s hs
    rw [consecutiveDayStreaks_eq_span] at hs
    exact streaksSpan_gapfree pred recs.length recs (Nat.le_refl _) hch s hs
  · decide

/-- Witness for the amended claim C5 at the January example, a gap-free
period: every reported streak covers its dates and is maximal. -/
theorem streak_scan_characterization_witness :
    List.Chain' nextDay januaryRecords ∧
    (∀ s ∈ consecutiveDayStreaks coldMaxPred januaryRecords,
      0 < s.2 ∧ streakCoversDates coldMaxPred januaryRecords s ∧
      streakMaximal coldMaxPred januaryRecords s) :=
  ⟨by simp only [januaryRecords, List.chain'_cons, List.chain'_singleton, and_true]; decide,
    streak_scan_characterization.1 coldMaxPred januaryRecords
      (by simp only [januaryRecords, List.chain'_cons, List.chain'_singleton, and_true]; decide)⟩

/-! ### Per-year counting (analyze_cold_days.py lines 22-40 and
analyze_extreme_cold_days.py lines 23-42)

cold_days = df[pred]; cold_days_by_year = cold_days.groupby('year').size();
all_years = sorted(df['year'].unique()); the report then prints, for every
year of all_years, cold_days_by_year.get(year, 0). The calendar projection
from the day index to a year is abstract (yearOf), since the scripts use the
year only as a grouping key. -/

/-- analyze_cold_days.py line 22: min_temp_c < -10. -/
def coldDayPred (r : Record) : Bool := decide (r.min_temp_c < -10)

/-- analyze_extreme_cold_days.py line 23: max_temp_c < -10. -/
def extremeColdDayPred (r : Record) : Bool := decide (r.max_temp_c < -10)

/-- sorted(df['year'].unique()): the distinct years, ascending. -/
def sortedUniqueYears (yearOf : Nat → Nat) (recs : List Record) : List Nat :=
  List.insertionSort (fun a b => a ≤ b) (recs.map (fun r => yearOf r.date)).dedup

/-- The printed per-year mapping: for every year of the dataset, the number
of qualifying records of that year (0 when the groupby has no entry). -/
def countByYearWhere (yearOf : Nat → Nat) (pred : Record → Bool) (recs : List Record) :
    List (Nat × Nat) :=
  (sortedUniqueYears yearOf recs).map
    (fun y => (y, ((recs.filter pred).filter (fun r => decide (yearOf r.date = y))).length))

/-- Claim C6: the per-year count report has exactly one entry for every year
appearing in the dataset — no duplicates, no missing years — and the count of
an entry is the number of records of that year satisfying the predicate, so a
year with no qualifying days gets an explicit 0. -/
theorem countByYearWhere_dense (yearOf : Nat → Nat) (pred : Record → Bool)
    (recs : List Record) :
    ((countByYearWhere yearOf pred recs).map Prod.fst).Nodup ∧
    (∀ y : Nat, y ∈ (countByYearWhere yearOf pred recs).map Prod.fst ↔
      ∃ r ∈ recs, yearOf r.date = y) ∧
    (∀ p ∈ countByYearWhere yearOf pred recs,
      p.2 = (recs.filter (fun r => pred r && decide (yearOf r.date = p.1))).length) := by
  have hfst : (countByYearWhere yearOf pred recs).map Prod.fst
      = sortedUniqueYears yearOf recs := by
    rw [countByYearWhere, List.map_map]
    exact List.map_id'' (fun x => rfl) _
  have hperm : List.Perm (sortedUniqueYears yearOf recs)
      ((recs.map (fun r => yearOf r.date)).dedup) :=
    List.perm_insertionSort _ _
  refine ⟨?_, ?_, ?_⟩
  · rw [hfst]
    exact hperm.nodup_iff.mpr (List.nodup_dedup _)
  · intro y
    rw [hfst]
    rw [hperm.mem_iff, List.mem_dedup, List.mem_map]
  · intro p hp
    rcases List.mem_map.mp hp with ⟨y, _, rfl⟩
    simp only [List.filter_filter]
    congr 1
    apply List.filter_congr
    intro a _
    exact Bool.and_comm _ _

/-- A dataset spanning six consecutive years (with yearOf d = 2020 + d):
only the 2020 and 2025 records qualify as cold days. -/
def yearFixture : List Record :=
  [mkDay 0 0 (-12), mkDay 1 0 0, mkDay 2 0 0, mkDay 3 0 0, mkDay 4 0 0, mkDay 5 0 (-15)]

/-- Witness for claim C6: six entries for 2020..2025, zero-count years
included explicitly. -/
theorem countByYearWhere_dense_witness :
    countByYearWhere (fun d => 2020 + d) coldDayPred yearFixture =
      [(2020, 1), (2021, 0), (2022, 0), (2023, 0), (2024, 0), (2025, 1)] ∧
    (countByYearWhere (fun d => 2020 + d) coldDayPred yearFixture).length = 6 ∧
    (((countByYearWhere (fun d => 2020 + d) coldDayPred yearFixture).map Prod.fst).Nodup ∧
      (∀ y : Nat,
        y ∈ (countByYearWhere (fun d => 2020 + d) coldDayPred yearFixture).map Prod.fst ↔
          ∃ r ∈ yearFixture, (fun d => 2020 + d) r.date = y) ∧
      (∀ p ∈ countByYearWhere (fun d => 2020 + d) coldDayPred yearFixture,
        p.2 = (yearFixture.filter
          (fun r => coldDayPred r && decide ((fun d => 2020 + d) r.date = p.1))).length)) :=
  ⟨by decide, by decide, countByYearWhere_dense (fun d => 2020 + d) coldDayPred yearFixture⟩

/-! ### Wind field derivation (update_digby_temperature.py lines 140-161) -/

/-- One sub-daily (hourly) API reading; none models an absent or empty field
(falsy in the Python h.get checks). -/
structure HourlyReading where
  windspeedKmph : Option ℚ
  winddir16Point : Option String
  windGustKmph : Option ℚ
  deriving Repr, DecidableEq

/-- One fetched day of the API response. When the response lacks an hourly
key the script substitutes [{}], i.e. a single all-empty reading. -/
structure DayData where
  date : Nat
  maxtempC : Int
  mintempC : Int
  maxtempF : Int
  mintempF : Int
  uvIndex : String
  sunHour : String
  hourly : List HourlyReading
  deriving Repr, DecidableEq

/-- Line 144: the wind-speed samples present among the day's readings. -/
def windSamples (hourly : List HourlyReading) : List ℚ :=
  hourly.filterMap (fun h => h.windspeedKmph)

/-- Python round(x, 1): one decimal place (ties modelled as half-up). -/
def roundTo1 (q : ℚ) : ℚ := ((⌊q * 10 + 1/2⌋ : ℤ) : ℚ) / 10

/-- Lines 145-160: the record built for one fetched day. wind_speed_kmph is
the rounded mean of the present samples (0 when none), wind_direction and
wind_gust_kmph come from the FIRST hourly reading. -/
def buildRecord (day : DayData) : Record where
  date := day.date
  max_temp_c := day.maxtempC
  min_temp_c := day.mintempC
  max_temp_f := day.maxtempF
  min_temp_f := day.mintempF
  avg_temp_c := ((day.maxtempC : ℚ) + (day.mintempC : ℚ)) / 2
  avg_temp_f := ((day.maxtempF : ℚ) + (day.mintempF : ℚ)) / 2
  uv_index := day.uvIndex
  sun_hour := day.sunHour
  wind_speed_kmph :=
    roundTo1 (if windSamples day.hourly = [] then 0
      else (windSamples day.hourly).sum / ((windSamples day.hourly).length : ℚ))
  wind_direction :=
    match day.hourly.head? with
    | some h => h.winddir16Point.getD ""
    | none => ""
  wind_gust_kmph :=
    match day.hourly.head? with
    | some h => h.windGustKmph.getD 0
    | none => 0

/-- The claim's peak gust: the maximum sub-daily gust of the date. -/
def claimedPeakGust (hourly : List HourlyReading) : ℚ :=
  (hourly.filterMap (fun h => h.windGustKmph)).foldr max 0

/-- The claim's stored speed: the exact (unrounded) mean of the day's
sub-daily wind-speed samples, 0 when there are none. -/
def claimedMeanWind (hourly : List HourlyReading) : ℚ :=
  if windSamples hourly = [] then 0
  else (windSamples hourly).sum / ((windSamples hourly).length : ℚ)

/-- A day with two hourly readings: speeds 1 and 1.12, gusts 10 and 30. -/
def gustDay : DayData where
  date := 100
  maxtempC := 5
  mintempC := 1
  maxtempF := 41
  mintempF := 34
  uvIndex := ""
  sunHour := ""
  hourly := [⟨some 1, some "N", some 10⟩, ⟨some (28/25), some "S", some 30⟩]

/-- Counterexample to claim C7 as stated: on a day with two readings the
stored gust is the first reading's 10, not the peak 30, and the stored speed
is the rounded mean 1.1, not the exact mean 1.06. -/
theorem buildRecord_wind_counterexample :
    (buildRecord gustDay).wind_gust_kmph ≠ claimedPeakGust gustDay.hourly ∧
    (buildRecord gustDay).wind_gust_kmph = 10 ∧
    claimedPeakGust gustDay.hourly = 30 ∧
    (buildRecord gustDay).wind_speed_kmph ≠ claimedMeanWind gustDay.hourly ∧
    (buildRecord gustDay).wind_speed_kmph = 11/10 ∧
    claimedMeanWind gustDay.hourly = 53/50 := by
  have hsamples : windSamples gustDay.hourly = [1, 28/25] := by
    simp [windSamples, gustDay]
  have hne : windSamples gustDay.hourly ≠ [] := by
    rw [hsamples]
    exact List.cons_ne_nil _ _
  have hmean : (windSamples gustDay.hourly).sum / ((windSamples gustDay.hourly).length : ℚ)
      = 53/50 := by
    rw [hsamples]
    norm_num
  have hfloor : ⌊((53:ℚ)/50 * 10 + 1/2)⌋ = 11 := by
    rw [Int.floor_eq_iff]
    norm_num
  have hgust : (buildRecord gustDay).wind_gust_kmph = 10 := by
    simp [buildRecord, gustDay]
  have hpeak : claimedPeakGust gustDay.hourly = 30 := by
    simp only [claimedPeakGust, gustDay, List.filterMap_cons, List.filterMap_nil,
      List.foldr_cons, List.foldr_nil]
    rw [max_def, max_def]
    norm_num
  have hspeed : (buildRecord gustDay).wind_speed_kmph = 11/10 := by
    simp only [buildRecord, if_neg hne, hmean, roundTo1, hfloor]
    norm_num
  have hclaimed : claimedMeanWind gustDay.hourly = 53/50 := by
    unfold claimedMeanWind
    rw [if_neg hne, hmean]
  refine ⟨?_, hgust, hpeak, ?_, hspeed, hclaimed⟩
  · rw [hgust, hpeak]
    norm_num
  · rw [hspeed, hclaimed]
    norm_num

/-- Claim C7 amended: wind_speed_kmph is the mean of the present sub-daily
wind-speed samples rounded to one decimal (0 when there are none);
wind_direction is the first reading's 16-point label ('' when absent); and
wind_gust_kmph is the FIRST reading's gust (0 when absent), not the peak. -/
theorem buildRecord_wind_fields (day : DayData) :
    (windSamples day.hourly = [] → (buildRecord day).wind_speed_kmph = 0) ∧
    (∀ μ : ℚ, windSamples day.hourly ≠ [] →
      μ * ((windSamples day.hourly).length : ℚ) = (windSamples day.hourly).sum →
      (buildRecord day).wind_speed_kmph = roundTo1 μ) ∧
    (buildRecord day).wind_direction
      = (day.hourly.head?.bind (fun h => h.winddir16Point)).getD "" ∧
    (buildRecord day).wind_gust_kmph
      = (day.hourly.head?.bind (fun h => h.windGustKmph)).getD 0 := by
  refine ⟨?_, ?_, ?_, ?_⟩
  · intro h
    have h0 : ⌊((0:ℚ) * 10 + 1/2)⌋ = 0 := by
      rw [Int.floor_eq_iff]
      norm_num
    simp only [buildRecord, if_pos h, roundTo1, h0]
    norm_num
  · intro μ hne hsum
    have h0 : (windSamples day.hourly).length ≠ 0 :=
      fun hz => hne (List.length_eq_zero.mp hz)
    have hlen : ((windSamples day.hourly).length : ℚ) ≠ 0 := Nat.cast_ne_zero.mpr h0
    have hdiv : (windSamples day.hourly).sum / ((windSamples day.hourly).length : ℚ) = μ :=
      (div_eq_iff hlen).mpr hsum.symm
    simp only [buildRecord, if_neg hne, hdiv]
  · cases h : day.hourly with
    | nil => simp [buildRecord, h]
    | cons x xs => simp [buildRecord, h]
  · cases h : day.hourly with
    | nil => simp [buildRecord, h]
    | cons x xs => simp [buildRecord, h]

/-- Witness for the amended claim C7: on the two-reading day the stored
speed is the rounded mean of 53/50 = 1.06, namely 1.1. -/
theorem buildRecord_wind_fields_witness :
    windSamples gustDay.hourly ≠ [] ∧
    (53/50 : ℚ) * ((windSamples gustDay.hourly).length : ℚ)
      = (windSamples gustDay.hourly).sum ∧
    (buildRecord gustDay).wind_speed_kmph = roundTo1 (53/50) := by
  have hne : windSamples gustDay.hourly ≠ [] := by
    simp [windSamples, gustDay]
  have hsum : (53/50 : ℚ) * ((windSamples gustDay.hourly).length : ℚ)
      = (windSamples gustDay.hourly).sum := by
    simp only [windSamples, gustDay, List.filterMap_cons, List.filterMap_nil,
      List.length_cons, List.length_nil, List.sum_cons, List.sum_nil]
    norm_num
  exact ⟨hne, hsum, (buildRecord_wind_fields gustDay).2.1 (53/50) hne hsum⟩

/-! ### The wind visualizers (visualize_wind.py, plot_interactive_wind.py) -/

/-- A loaded CSV frame: its header columns and its parsed rows. -/
structure CsvFrame where
  columns : List String
  rows : List Record
  deriving Repr

/-- The 16 compass labels of visualize_wind.py lines 94-99. -/
def compassPoints : List String :=
  ["N", "NNE", "NE", "ENE", "E", "ESE", "SE", "SSE",
   "S", "SSW", "SW", "WSW", "W", "WNW", "NW", "NNW"]

/-- Minimum of a list of rationals (head-seeded fold; 0 on an empty list,
which the script never reaches thanks to its emptiness guard). -/
def qMin : List ℚ → ℚ
  | [] => 0
  | x :: xs => xs.foldl min x

/-- Maximum of a list of rationals, same shape as qMin. -/
def qMax : List ℚ → ℚ
  | [] => 0
  | x :: xs => xs.foldl max x

/-- The statistics visualize_wind.py reports: lines 151-153 over df_wind,
direction frequencies over df_direction (lines 102-106). -/
structure WindStats where
  usedRows : List Record
  avgWind : ℚ
  maxWind : ℚ
  minWind : ℚ
  dirCounts : List (String × Nat)
  deriving Repr

/-- visualize_wind.py up to its printed statistics: the wind-column guard
(lines 32-35, exit status 1), the zero-wind filter df_wind (line 40), the
emptiness guard (lines 43-45, exit status 1), then the aggregates over
df_wind. The value_counts ordering (descending frequency) is not modelled:
dirCounts lists, in compass order, each label present in df_direction with
its frequency. -/
def visualizeWindRun (csv : CsvFrame) : Except (Nat × String) WindStats :=
  if "wind_speed_kmph" ∈ csv.columns then
    let dfWind := csv.rows.filter (fun r => decide (0 < r.wind_speed_kmph))
    if dfWind.length = 0 then Except.error (1, "No wind data available to visualize.")
    else
      let dfDirection := dfWind.filter (fun r => decide (r.wind_direction ∈ compassPoints))
      Except.ok
        { usedRows := dfWind
          avgWind := (dfWind.map Record.wind_speed_kmph).sum / (dfWind.length : ℚ)
          maxWind := qMax (dfWind.map Record.wind_speed_kmph)
          minWind := qMin (dfWind.map Record.wind_speed_kmph)
          dirCounts := compassPoints.filterMap (fun dname =>
            match (dfDirection.filter (fun r => decide (r.wind_direction = dname))).length with
            | 0 => none
            | Nat.succ c => some (dname, c + 1)) }
  else Except.error (1, "Error: No wind data in CSV file!")

/-- plot_interactive_wind.py up to its first aggregate: the wind-column
guard (lines 30-33, exit status 1), then the monthly mean wind speed per
(year, month) group of line 49. yearOf and monthOf are the abstract calendar
projections of the date index. -/
def plotInteractiveWindRun (yearOf monthOf : Nat → Nat) (csv : CsvFrame) :
    Except (Nat × String) (List ((Nat × Nat) × ℚ)) :=
  if "wind_speed_kmph" ∈ csv.columns then
    Except.ok (((csv.rows.map (fun r => (yearOf r.date, monthOf r.date))).dedup).map (fun k =>
      let grp := csv.rows.filter (fun r => decide ((yearOf r.date, monthOf r.date) = k))
      (k, (grp.map Record.wind_speed_kmph).sum / (grp.length : ℚ))))
  else Except.error (1, "Error: No wind data in CSV file!")

/-- Claim C8: when the persisted dataset lacks the wind_speed_kmph column
entirely, both wind entry points stop with the missing-column message and
exit status 1 before computing any aggregate — no zero-filled or empty
result is produced. -/
theorem missing_wind_column_errors (csv : CsvFrame) (yearOf monthOf : Nat → Nat)
    (h : "wind_speed_kmph" ∉ csv.columns) :
    visualizeWindRun csv = Except.error (1, "Error: No wind data in CSV file!") ∧
    plotInteractiveWindRun yearOf monthOf csv =
      Except.error (1, "Error: No wind data in CSV file!") := by
  constructor
  · rw [visualizeWindRun, if_neg h]
  · rw [plotInteractiveWindRun, if_neg h]

/-- A frame persisted without any wind column. -/
def noWindCsv : CsvFrame :=
  { columns := ["date", "max_temp_c", "min_temp_c"], rows := [mkDay 1 5 1] }

/-- Witness for claim C8 at the wind-less frame. -/
theorem missing_wind_column_errors_witness :
    "wind_speed_kmph" ∉ noWindCsv.columns ∧
    (visualizeWindRun noWindCsv = Except.error (1, "Error: No wind data in CSV file!") ∧
      plotInteractiveWindRun (fun d => d) (fun d => d) noWindCsv =
        Except.error (1, "Error: No wind data in CSV file!")) :=
  ⟨by decide, missing_wind_column_errors noWindCsv (fun d => d) (fun d => d) (by decide)⟩

theorem foldl_min_mem : ∀ (xs : List ℚ) (x : ℚ), xs.foldl min x ∈ x :: xs := by
  intro xs
  induction xs with
  | nil =>
    intro x
    exact List.mem_singleton_self _
  | cons y ys ih =>
    intro x
    show ys.foldl min (min x y) ∈ x :: y :: ys
    rcases List.mem_cons.mp (ih (min x y)) with heq | hmem
    · rcases min_choice x y with hc | hc
      · rw [heq, hc]
        exact List.mem_cons_self _ _
      · rw [heq, hc]
        exact List.mem_cons_of_mem _ (List.mem_cons_self _ _)
    · exact List.mem_cons_of_mem _ (List.mem_cons_of_mem _ hmem)

theorem qMin_mem {l : List ℚ} (h : l ≠ []) : qMin l ∈ l := by
  cases l with
  | nil => exact absurd rfl h
  | cons x xs => exact foldl_min_mem xs x

/-- Claim C10: whenever visualize_wind.py reaches its statistics, the rows
feeding every wind statistic are exactly those with strictly positive
wind_speed_kmph — every zero-wind row is excluded — and the reported minimum
wind speed is one of the used rows' speeds, hence strictly positive. -/
theorem visualizeWind_excludes_zero_wind (csv : CsvFrame) (stats : WindStats)
    (h : visualizeWindRun csv = Except.ok stats) :
    (∀ r ∈ stats.usedRows, 0 < r.wind_speed_kmph) ∧
    (∀ r ∈ csv.rows, r.wind_speed_kmph = 0 → r ∉ stats.usedRows) ∧
    stats.minWind ∈ stats.usedRows.map Record.wind_speed_kmph ∧
    0 < stats.minWind := by
  simp only [visualizeWindRun] at h
  split_ifs at h with hcol hlen
  · injection h with h'
    subst h'
    have hpos : ∀ r ∈ csv.rows.filter (fun r => decide (0 < r.wind_speed_kmph)),
        0 < r.wind_speed_kmph := by
      intro r hr
      have hcond := List.of_mem_filter hr
      simpa using hcond
    have hused : ∀ r ∈ csv.rows, r.wind_speed_kmph = 0 →
        r ∉ csv.rows.filter (fun r => decide (0 < r.wind_speed_kmph)) := by
      intro r _ h0 hmem
      have hgt := hpos r hmem
      rw [h0] at hgt
      exact lt_irrefl _ hgt
    have hne : csv.rows.filter (fun r => decide (0 < r.wind_speed_kmph)) ≠ [] := by
      intro hnil
      exact hlen (by rw [hnil]; rfl)
    have hmapne : (csv.rows.filter (fun r => decide (0 < r.wind_speed_kmph))).map
        Record.wind_speed_kmph ≠ [] := by
      intro hm
      exact hne (List.map_eq_nil_iff.mp hm)
    have hmin_mem := qMin_mem hmapne
    have hmin_pos : 0 < qMin ((csv.rows.filter
        (fun r => decide (0 < r.wind_speed_kmph))).map Record.wind_speed_kmph) := by
      rcases List.mem_map.mp hmin_mem with ⟨r, hr, hrq⟩
      rw [← hrq]
      exact hpos r hr
    exact ⟨hpos, hused, hmin_mem, hmin_pos⟩

/-- A calm day: recorded wind speed 0 (no wind data or genuinely calm). -/
def calmRow : Record where
  date := 1
  max_temp_c := 5
  min_temp_c := 1
  max_temp_f := 41
  min_temp_f := 33
  avg_temp_c := 3
  avg_temp_f := 37
  uv_index := ""
  sun_hour := ""
  wind_speed_kmph := 0
  wind_direction := ""
  wind_gust_kmph := 0

/-- A breezy day: wind 12 km/h from the north. -/
def breezyRow : Record where
  date := 2
  max_temp_c := 6
  min_temp_c := 2
  max_temp_f := 43
  min_temp_f := 35
  avg_temp_c := 4
  avg_temp_f := 39
  uv_index := ""
  sun_hour := ""
  wind_speed_kmph := 12
  wind_direction := "N"
  wind_gust_kmph := 20

def windCsv : CsvFrame where
  columns := ["date", "max_temp_c", "min_temp_c", "wind_speed_kmph", "wind_direction"]
  rows := [calmRow, breezyRow]

def windStatsFixture : WindStats where
  usedRows := [breezyRow]
  avgWind := 12
  maxWind := 12
  minWind := 12
  dirCounts := [("N", 1)]

/-- Concrete evaluation of the visualize_wind.py run on the two-row frame:
the calm row is dropped, all statistics come from the breezy row alone. -/
theorem visualizeWindRun_windCsv :
    visualizeWindRun windCsv = Except.ok windStatsFixture := by
  have hcol : "wind_speed_kmph" ∈ windCsv.columns := by decide
  have hfilter : windCsv.rows.filter (fun r => decide (0 < r.wind_speed_kmph))
      = [breezyRow] := by decide
  rw [visualizeWindRun, if_pos hcol]
  simp only [hfilter]
  rw [if_neg (by decide : ¬([breezyRow] : List Record).length = 0)]
  refine congrArg Except.ok ?_
  show WindStats.mk _ _ _ _ _ = WindStats.mk _ _ _ _ _
  rw [WindStats.mk.injEq]
  refine ⟨rfl, ?_, rfl, rfl, ?_⟩
  · simp only [List.map_cons, List.map_nil, List.sum_cons, List.sum_nil,
      List.length_cons, List.length_nil, breezyRow]
    norm_num
  · decide

/-- Witness for claim C10: on the two-row frame the statistics use only the
breezy row; the calm (zero-wind) row is excluded and the minimum is 12 > 0. -/
theorem visualizeWind_excludes_zero_wind_witness :
    (∀ r ∈ windStatsFixture.usedRows, 0 < r.wind_speed_kmph) ∧
    (∀ r ∈ windCsv.rows, r.wind_speed_kmph = 0 → r ∉ windStatsFixture.usedRows) ∧
    windStatsFixture.minWind ∈ windStatsFixture.usedRows.map Record.wind_speed_kmph ∧
    0 < windStatsFixture.minWind :=
  visualizeWind_excludes_zero_wind windCsv windStatsFixture visualizeWindRun_windCsv

end Digby
